import Mathlib

/-!
Verification development for a single-locus population-genetics simulation.

The program simulates a diallelic locus over discrete generations:
per generation it applies probabilistic survival selection, enforces a
carrying capacity by repeated re-selection, forms random mating pairs by
shuffling indices, and produces offspring; afterwards a statistics pass
over the recorded history computes genotype/allele percentage series and
a total-count series.

Embedding conventions:
* Python strings are modelled as `List Char`; the alleles are the
  one-character strings "A" and "a".
* Random draws are passed in explicitly: uniform [0,1) draws as `ℚ`
  streams, the shuffle as an oracle function on index lists, the raw
  normal draw for offspring counts as a `ℚ` per pair, and the
  `random.choice` picks as natural-number oracles.
* Python runtime errors (an unbound `probability` variable in
  `checkSurvival`, out-of-range indexing, `random.choice` on an empty
  sequence) are modelled as `Option` failure (`none`).
* The unbounded `while` loop enforcing the carrying capacity is modelled
  with explicit fuel; `none` means the loop did not exit within the
  given fuel (or a runtime error occurred).
-/

/-- A genotype is a Python string, modelled as a list of characters. -/
abbrev Genotype := List Char

/-- `DOMINANT_ALLELE = "A"`. -/
def DOMINANT_ALLELE : List Char := ['A']

/-- `RECESSIVE_ALLELE = "a"`. -/
def RECESSIVE_ALLELE : List Char := ['a']

/-- `HOM_DOM_SURV_PROB = 0.99`. -/
def HOM_DOM_SURV_PROB : ℚ := mkRat 99 100

/-- `HET_SURV_PROB = 0.99`. -/
def HET_SURV_PROB : ℚ := mkRat 99 100

/-- `HOM_REC_SURV_PROB = 0.99`. -/
def HOM_REC_SURV_PROB : ℚ := mkRat 99 100

/-- `N_INITIAL_ORGANISMS = 100`. -/
def N_INITIAL_ORGANISMS : ℕ := 100

/-- `N_GENERATIONS = 20`. -/
def N_GENERATIONS : ℕ := 20

/-- `CARRYING_CAPACITY = 1000`. -/
def CARRYING_CAPACITY : ℕ := 1000

/-- `isHomDom`: the organism equals `DOMINANT_ALLELE + DOMINANT_ALLELE`. -/
def isHomDom (org : Genotype) : Bool :=
  org == DOMINANT_ALLELE ++ DOMINANT_ALLELE

/-- `isHomRec`: the organism equals `RECESSIVE_ALLELE + RECESSIVE_ALLELE`. -/
def isHomRec (org : Genotype) : Bool :=
  org == RECESSIVE_ALLELE ++ RECESSIVE_ALLELE

/-- `isHet`: the organism equals `"Aa"` or `"aA"`. -/
def isHet (org : Genotype) : Bool :=
  org == DOMINANT_ALLELE ++ RECESSIVE_ALLELE ||
    org == RECESSIVE_ALLELE ++ DOMINANT_ALLELE

/-- The `probability` variable of `checkSurvival` after its three `if`
statements, as an `Option`: the source assigns it in three successive
(non-`elif`) branches, and it stays unbound (`none`) when no branch
fires. -/
def survivalProbOpt (pHomDom pHet pHomRec : ℚ) (g : Genotype) : Option ℚ :=
  let pr : Option ℚ := none
  let pr : Option ℚ := if isHomDom g then some pHomDom else pr
  let pr : Option ℚ := if isHet g then some pHet else pr
  let pr : Option ℚ := if isHomRec g then some pHomRec else pr
  pr

/-- `checkSurvival`: compare one uniform draw `u` against the genotype's
survival probability; `none` models the `NameError` raised when
`probability` was never assigned. -/
def checkSurvival (pHomDom pHet pHomRec : ℚ) (u : ℚ) (g : Genotype) :
    Option Bool :=
  (survivalProbOpt pHomDom pHet pHomRec g).map (fun p => decide (u < p))

/-- Python's `round`: round half to even (banker's rounding).  Written
on the numerator and denominator so that the kernel can evaluate it:
`f` is `⌊x⌋` and `r / x.den` is the fractional part, so the three
branches are fractional part `< 1/2`, `> 1/2`, and the half-way tie
resolved to the even neighbour. -/
def pyRound (x : ℚ) : ℤ :=
  let f : ℤ := x.num / (x.den : ℤ)
  let r : ℤ := x.num % (x.den : ℤ)
  if 2 * r < (x.den : ℤ) then f
  else if (x.den : ℤ) < 2 * r then f + 1
  else if f % 2 = 0 then f else f + 1

/-- `howManyOffspring`: round the raw normal draw (passed in explicitly)
to the nearest integer. -/
def howManyOffspring (draw : ℚ) : ℤ :=
  pyRound draw

/-- `random.choice` on a character sequence, driven by an explicit
oracle `i`; `none` models the exception on an empty sequence. -/
def randomChoice (i : ℕ) (l : List Char) : Option Char :=
  l[i % l.length]?

/-- `generateOffspring`: one allele chosen from each parent,
concatenated. -/
def generateOffspring (i j : ℕ) (p1 p2 : Genotype) : Option Genotype :=
  match randomChoice i p1 with
  | none => none
  | some a1 =>
    match randomChoice j p2 with
    | none => none
    | some a2 => some [a1, a2]

/-- One survival-filtering pass (the list comprehension on the current
population), starting at draw index `i`; each organism consumes one
uniform draw in list order. -/
def selectPassAux (pHomDom pHet pHomRec : ℚ) (d : ℕ → ℚ) :
    ℕ → List Genotype → Option (List Genotype)
  | _, [] => some []
  | i, g :: rest =>
    match checkSurvival pHomDom pHet pHomRec (d i) g with
    | none => none
    | some true =>
      match selectPassAux pHomDom pHet pHomRec d (i + 1) rest with
      | none => none
      | some r => some (g :: r)
    | some false => selectPassAux pHomDom pHet pHomRec d (i + 1) rest

/-- The full survival-filtering pass over a population. -/
def selectPass (pHomDom pHet pHomRec : ℚ) (d : ℕ → ℚ)
    (pop : List Genotype) : Option (List Genotype) :=
  selectPassAux pHomDom pHet pHomRec d 0 pop

/-- The carrying-capacity `while` loop: while the population exceeds the
capacity `C`, re-apply the survival-filtering pass.  `d k` is the draw
stream of the `k`-th pass; `fuel` bounds the number of passes, `none`
meaning the loop had not exited yet (or a pass failed). -/
def enforceCapacity (pHomDom pHet pHomRec : ℚ) (C : ℕ) (d : ℕ → ℕ → ℚ) :
    ℕ → List Genotype → Option (List Genotype)
  | 0, pop => if pop.length ≤ C then some pop else none
  | fuel + 1, pop =>
    if pop.length ≤ C then some pop
    else
      match selectPass pHomDom pHet pHomRec (d 0) pop with
      | none => none
      | some pop2 =>
        enforceCapacity pHomDom pHet pHomRec C (fun k => d (k + 1)) fuel pop2

/-- `k`-fold iteration of the survival-filtering pass, consuming the
same per-pass draw streams as `enforceCapacity`. -/
def passIter (pHomDom pHet pHomRec : ℚ) (d : ℕ → ℕ → ℚ) :
    ℕ → List Genotype → Option (List Genotype)
  | 0, pop => some pop
  | k + 1, pop =>
    match selectPass pHomDom pHet pHomRec (d 0) pop with
    | none => none
    | some pop2 => passIter pHomDom pHet pHomRec (fun j => d (j + 1)) k pop2

/-- The stride-2 slice `l[::2]`: positions 0, 2, 4, …. -/
def stride2 : List α → List α
  | [] => []
  | [a] => [a]
  | a :: _ :: rest => a :: stride2 rest

/-- The randomness one generation consumes, passed in explicitly:
uniform draws for the selection pass and for each capacity pass, the
result of `random.shuffle`, the raw normal draw per mating pair, and
the `random.choice` oracles for each offspring's two alleles. -/
structure GenOracle where
  selDraws : ℕ → ℚ
  capDraws : ℕ → ℕ → ℚ
  shuffled : List ℕ → List ℕ
  offDraws : ℕ → ℚ
  chooseA : ℕ → ℕ → ℕ
  chooseB : ℕ → ℕ → ℕ

/-- The shuffled index list `l` for a population of size `n`. -/
def shuffledIndices (o : GenOracle) (n : ℕ) : List ℕ :=
  o.shuffled (List.range n)

/-- The mating pairs: `l1 = l[::2]` zipped with `l2 = l[1::2]`, which
is exactly the loop `for pairnum in range(min(len(l1), len(l2)))`. -/
def matingPairs (o : GenOracle) (n : ℕ) : List (ℕ × ℕ) :=
  (stride2 (shuffledIndices o n)).zip (stride2 (shuffledIndices o n).tail)

/-- How many mating pairs form for a population of size `n`. -/
def numPairs (o : GenOracle) (n : ℕ) : ℕ :=
  (matingPairs o n).length

/-- The inner reproduction loop for one pair:
`for offspringnum in range(n)` appending one offspring per iteration.
`i` is the current `offspringnum`, `n` the iterations left. -/
def genOffAux (o : GenOracle) (pairnum : ℕ) (p1 p2 : Genotype) :
    ℕ → ℕ → Option (List Genotype)
  | _, 0 => some []
  | i, n + 1 =>
    match generateOffspring (o.chooseA pairnum i) (o.chooseB pairnum i) p1 p2 with
    | none => none
    | some c =>
      match genOffAux o pairnum p1 p2 (i + 1) n with
      | none => none
      | some rest => some (c :: rest)

/-- The outer reproduction loop over the mating pairs, accumulating
`NEW_POPULATION`; indices come from the shuffled list, and each pair
draws `howManyOffspring` once. -/
def matePairs (o : GenOracle) (pop : List Genotype) :
    List (ℕ × ℕ) → ℕ → Option (List Genotype)
  | [], _ => some []
  | (i1, i2) :: rest, pairnum =>
    match pop[i1]?, pop[i2]? with
    | some p1, some p2 =>
      match genOffAux o pairnum p1 p2 0
          (howManyOffspring (o.offDraws pairnum)).toNat with
      | none => none
      | some offs =>
        match matePairs o pop rest (pairnum + 1) with
        | none => none
        | some more => some (offs ++ more)
    | _, _ => none

/-- The whole Mating + Reproducing phase: shuffle the index list, split
it by stride 2, and produce the new population. -/
def mateStep (o : GenOracle) (pop : List Genotype) : Option (List Genotype) :=
  matePairs o pop (matingPairs o pop.length) 0

/-- The indices that take part in some mating pair, in pair order. -/
def pairedIndices (o : GenOracle) (n : ℕ) : List ℕ :=
  ((matingPairs o n).map (fun p => [p.1, p.2])).flatten

/-- One iteration of the main simulation loop: Selecting, then
EnforcingCapacity, then Mating/Reproducing.  Returns the recorded
population (appended to `GENERATIONAL_DATA`) and the next
`CURRENT_POPULATION`. -/
def generationStep (pHomDom pHet pHomRec : ℚ) (C capFuel : ℕ)
    (o : GenOracle) (pop : List Genotype) :
    Option (List Genotype × List Genotype) :=
  match selectPass pHomDom pHet pHomRec o.selDraws pop with
  | none => none
  | some selected =>
    match enforceCapacity pHomDom pHet pHomRec C o.capDraws capFuel selected with
    | none => none
    | some capped =>
      match mateStep o capped with
      | none => none
      | some next => some (capped, next)

/-- The main loop from generation `g`, for `n` more generations:
returns the history recorded from here on and the final
`CURRENT_POPULATION`. -/
def runSimAux (pHomDom pHet pHomRec : ℚ) (C capFuel : ℕ)
    (os : ℕ → GenOracle) :
    ℕ → ℕ → List Genotype → Option (List (List Genotype) × List Genotype)
  | _, 0, pop => some ([], pop)
  | g, n + 1, pop =>
    match generationStep pHomDom pHet pHomRec C capFuel (os g) pop with
    | none => none
    | some (recPop, next) =>
      match runSimAux pHomDom pHet pHomRec C capFuel os (g + 1) n next with
      | none => none
      | some (hist, finPop) => some (recPop :: hist, finPop)

/-- The whole simulation: `GENERATIONAL_DATA` plus the final population. -/
def runSim (pHomDom pHet pHomRec : ℚ) (C capFuel nGen : ℕ)
    (os : ℕ → GenOracle) (initPop : List Genotype) :
    Option (List (List Genotype) × List Genotype) :=
  runSimAux pHomDom pHet pHomRec C capFuel os 0 nGen initPop

/-- The initial population: `N` copies of the heterozygote
`DOMINANT_ALLELE + RECESSIVE_ALLELE`. -/
def initialPopulation (n : ℕ) : List Genotype :=
  List.replicate n (DOMINANT_ALLELE ++ RECESSIVE_ALLELE)

/-- The per-generation counter variables of the statistics loop. -/
structure GenCounts where
  nHomDom : ℕ
  nHet : ℕ
  nHomRec : ℕ
  nDomAllele : ℕ
  nRecAllele : ℕ
deriving DecidableEq, Repr

/-- One organism's contribution to the counters: the loop body's
`if`/`continue` chain checks HomDom, then HomRec, then Het. -/
def countOrganism (c : GenCounts) (org : Genotype) : GenCounts :=
  if isHomDom org then
    { c with nHomDom := c.nHomDom + 1, nDomAllele := c.nDomAllele + 2 }
  else if isHomRec org then
    { c with nHomRec := c.nHomRec + 1, nRecAllele := c.nRecAllele + 2 }
  else if isHet org then
    { c with nHet := c.nHet + 1, nDomAllele := c.nDomAllele + 1,
             nRecAllele := c.nRecAllele + 1 }
  else c

/-- The counters after the whole per-generation counting loop. -/
def genCounts (gen : List Genotype) : GenCounts :=
  gen.foldl countOrganism ⟨0, 0, 0, 0, 0⟩

/-- `genotype_total` before the zero-substitution. -/
def genotypeTotalRaw (gen : List Genotype) : ℕ :=
  (genCounts gen).nHomDom + (genCounts gen).nHet + (genCounts gen).nHomRec

/-- `allele_total` before the zero-substitution. -/
def alleleTotalRaw (gen : List Genotype) : ℕ :=
  (genCounts gen).nDomAllele + (genCounts gen).nRecAllele

/-- The totals after the zero-population substitution: if either raw
total is 0 the population has died out and both are set to 1. -/
def substTotals (gen : List Genotype) : ℕ × ℕ :=
  if genotypeTotalRaw gen = 0 ∨ alleleTotalRaw gen = 0 then (1, 1)
  else (genotypeTotalRaw gen, alleleTotalRaw gen)

/-- The values appended for one generation: the five percentage series
entries and the `TOTAL_N` entry. -/
structure GenStats where
  homDomPct : ℚ
  homRecPct : ℚ
  hetPct : ℚ
  domPct : ℚ
  recPct : ℚ
  total : ℕ

/-- One generation's statistics, exactly as the aggregation loop
appends them (note that `TOTAL_N` receives `genotype_total` after the
substitution). -/
def statsOfGen (gen : List Genotype) : GenStats :=
  let c := genCounts gen
  let genotypeTotal := (substTotals gen).1
  let alleleTotal := (substTotals gen).2
  { homDomPct := 100 * (c.nHomDom : ℚ) / genotypeTotal
    homRecPct := 100 * (c.nHomRec : ℚ) / genotypeTotal
    hetPct := 100 * (c.nHet : ℚ) / genotypeTotal
    domPct := 100 * (c.nDomAllele : ℚ) / alleleTotal
    recPct := 100 * (c.nRecAllele : ℚ) / alleleTotal
    total := genotypeTotal }

/-- The `HOM_DOM_N_LIST` series over the recorded history. -/
def HOM_DOM_N_LIST (hist : List (List Genotype)) : List ℚ :=
  hist.map (fun gen => (statsOfGen gen).homDomPct)

/-- The `HOM_REC_N_LIST` series over the recorded history. -/
def HOM_REC_N_LIST (hist : List (List Genotype)) : List ℚ :=
  hist.map (fun gen => (statsOfGen gen).homRecPct)

/-- The `HET_N_LIST` series over the recorded history. -/
def HET_N_LIST (hist : List (List Genotype)) : List ℚ :=
  hist.map (fun gen => (statsOfGen gen).hetPct)

/-- The `DOM_ALLELE_N` series over the recorded history. -/
def DOM_ALLELE_N (hist : List (List Genotype)) : List ℚ :=
  hist.map (fun gen => (statsOfGen gen).domPct)

/-- The `REC_ALLELE_N` series over the recorded history. -/
def REC_ALLELE_N (hist : List (List Genotype)) : List ℚ :=
  hist.map (fun gen => (statsOfGen gen).recPct)

/-- The `TOTAL_N` series over the recorded history. -/
def TOTAL_N (hist : List (List Genotype)) : List ℕ :=
  hist.map (fun gen => (statsOfGen gen).total)

/-- A well-formed organism: a two-character string over the allele
alphabet, i.e. both characters are the dominant `'A'` or the recessive
`'a'`. -/
def wellFormed (g : Genotype) : Prop :=
  g.length = 2 ∧ ∀ c ∈ g, c = 'A' ∨ c = 'a'

instance (g : Genotype) : Decidable (wellFormed g) := by
  unfold wellFormed
  infer_instance

/-- Exactly one of the three category predicates holds. -/
def exactlyOneCategory (g : Genotype) : Prop :=
  (isHomDom g = true ∧ isHet g = false ∧ isHomRec g = false) ∨
    (isHomDom g = false ∧ isHet g = true ∧ isHomRec g = false) ∨
    (isHomDom g = false ∧ isHet g = false ∧ isHomRec g = true)

instance (g : Genotype) : Decidable (exactlyOneCategory g) := by
  unfold exactlyOneCategory
  infer_instance

theorem wellFormed_iff (g : Genotype) :
    wellFormed g ↔
      g = ['A', 'A'] ∨ g = ['A', 'a'] ∨ g = ['a', 'A'] ∨ g = ['a', 'a'] := by
  constructor
  · rintro ⟨hl, hc⟩
    obtain ⟨a, b, rfl⟩ := List.length_eq_two.mp hl
    have ha := hc a (by simp)
    have hb := hc b (by simp)
    rcases ha with rfl | rfl <;> rcases hb with rfl | rfl <;> simp
  · rintro (rfl | rfl | rfl | rfl) <;> exact ⟨rfl, by decide⟩

theorem exactlyOneCategory_of_wellFormed {g : Genotype} (h : wellFormed g) :
    exactlyOneCategory g := by
  rw [wellFormed_iff] at h
  rcases h with rfl | rfl | rfl | rfl <;> decide

theorem survivalProbOpt_isSome_of_wellFormed (pHomDom pHet pHomRec : ℚ)
    {g : Genotype} (h : wellFormed g) :
    (survivalProbOpt pHomDom pHet pHomRec g).isSome = true := by
  rw [wellFormed_iff] at h
  rcases h with rfl | rfl | rfl | rfl <;> rfl

theorem genCounts_loop_invariant (gen : List Genotype) : ∀ c : GenCounts,
    c.nDomAllele = 2 * c.nHomDom + c.nHet →
    c.nRecAllele = 2 * c.nHomRec + c.nHet →
    (gen.foldl countOrganism c).nDomAllele =
        2 * (gen.foldl countOrganism c).nHomDom + (gen.foldl countOrganism c).nHet ∧
      (gen.foldl countOrganism c).nRecAllele =
        2 * (gen.foldl countOrganism c).nHomRec + (gen.foldl countOrganism c).nHet := by
  induction gen with
  | nil => intro c h1 h2; exact ⟨h1, h2⟩
  | cons g rest ih =>
    intro c h1 h2
    refine ih (countOrganism c g) ?_ ?_ <;>
      · unfold countOrganism
        split_ifs <;> (try simp) <;> omega

theorem alleleTotalRaw_eq (gen : List Genotype) :
    alleleTotalRaw gen = 2 * genotypeTotalRaw gen := by
  have h := genCounts_loop_invariant gen ⟨0, 0, 0, 0, 0⟩ rfl rfl
  unfold alleleTotalRaw genotypeTotalRaw genCounts
  omega

/-- Claim C5: every genotype built from two alleles drawn from
{Dominant, Recessive} satisfies exactly one of `isHomDom`, `isHet`,
`isHomRec`; the three predicates partition the genotype space with no
"none of the above" outcome. -/
theorem genotype_partition (a b : List Char)
    (ha : a = DOMINANT_ALLELE ∨ a = RECESSIVE_ALLELE)
    (hb : b = DOMINANT_ALLELE ∨ b = RECESSIVE_ALLELE) :
    exactlyOneCategory (a ++ b) := by
  rcases ha with rfl | rfl <;> rcases hb with rfl | rfl <;> decide

/-- Witness for C5 at the heterozygote `"A" + "a"`. -/
theorem genotype_partition_witness :
    exactlyOneCategory (DOMINANT_ALLELE ++ RECESSIVE_ALLELE) :=
  genotype_partition DOMINANT_ALLELE RECESSIVE_ALLELE (Or.inl rfl) (Or.inr rfl)

/-- Claim C6: the statistics loop's allele counts satisfy
`2 × HomDomCount + HetCount = DominantAlleleCount` and
`2 × HomRecCount + HetCount = RecessiveAlleleCount` for every
generation. -/
theorem allele_accounting (gen : List Genotype) :
    2 * (genCounts gen).nHomDom + (genCounts gen).nHet =
        (genCounts gen).nDomAllele ∧
      2 * (genCounts gen).nHomRec + (genCounts gen).nHet =
        (genCounts gen).nRecAllele := by
  have h := genCounts_loop_invariant gen ⟨0, 0, 0, 0, 0⟩ rfl rfl
  unfold genCounts
  omega

/-- Claim C1 counterexample: for the extinct generation `[]` the raw
genotype total is 0, yet the entry appended to `TOTAL_N` is not 0 (the
substituted denominator 1 is appended). -/
theorem total_series_extinct_counterexample :
    genotypeTotalRaw ([] : List Genotype) = 0 ∧
      (statsOfGen ([] : List Genotype)).total ≠ 0 := by
  decide

/-- Claim C1 amended: the denominator-of-1 substitution does change the
recorded total: a generation with raw genotype total 0 records 1 in the
total-count series, while a generation with nonzero raw total records
its raw total. -/
theorem total_series_substituted (gen : List Genotype) :
    (genotypeTotalRaw gen = 0 → (statsOfGen gen).total = 1) ∧
      (genotypeTotalRaw gen ≠ 0 →
        (statsOfGen gen).total = genotypeTotalRaw gen) := by
  constructor
  · intro h
    simp [statsOfGen, substTotals, h]
  · intro h
    have ha : alleleTotalRaw gen ≠ 0 := by
      rw [alleleTotalRaw_eq]; omega
    simp [statsOfGen, substTotals, h, ha]

/-- Witness for the amended C1 at the extinct generation `[]`. -/
theorem total_series_substituted_witness :
    (statsOfGen ([] : List Genotype)).total = 1 :=
  (total_series_substituted []).1 (by decide)

/-- Claim C2: whenever the carrying-capacity loop exits, the resulting
population has size at most the capacity, and it was obtained from the
post-selection population only by some number of repetitions of the
same full survival-filtering pass. -/
theorem capacity_loop_exit (pHomDom pHet pHomRec : ℚ) (C : ℕ) :
    ∀ (fuel : ℕ) (d : ℕ → ℕ → ℚ) (pop pop2 : List Genotype),
      enforceCapacity pHomDom pHet pHomRec C d fuel pop = some pop2 →
      pop2.length ≤ C ∧
        ∃ k, passIter pHomDom pHet pHomRec d k pop = some pop2 := by
  intro fuel
  induction fuel with
  | zero =>
    intro d pop pop2 h
    rw [enforceCapacity] at h
    by_cases hc : pop.length ≤ C
    · rw [if_pos hc] at h
      obtain rfl := Option.some.inj h
      exact ⟨hc, 0, rfl⟩
    · rw [if_neg hc] at h
      exact absurd h (by simp)
  | succ fuel ih =>
    intro d pop pop2 h
    rw [enforceCapacity] at h
    by_cases hc : pop.length ≤ C
    · rw [if_pos hc] at h
      obtain rfl := Option.some.inj h
      exact ⟨hc, 0, rfl⟩
    · rw [if_neg hc] at h
      cases hsel : selectPass pHomDom pHet pHomRec (d 0) pop with
      | none => rw [hsel] at h; exact absurd h (by simp)
      | some pop3 =>
        rw [hsel] at h
        obtain ⟨hlen, k, hk⟩ := ih (fun j => d (j + 1)) pop3 pop2 h
        refine ⟨hlen, k + 1, ?_⟩
        rw [passIter, hsel]
        exact hk

/-- Witness for C2: a concrete loop run that exits with the empty
population after one culling pass. -/
theorem capacity_loop_exit_witness :
    ([] : List Genotype).length ≤ 1 ∧
      ∃ k, passIter (mkRat 99 100) (mkRat 99 100) (mkRat 99 100)
        (fun _ _ => 1) k [['A', 'a'], ['A', 'a']] = some [] :=
  capacity_loop_exit (mkRat 99 100) (mkRat 99 100) (mkRat 99 100) 1 5
    (fun _ _ => 1) [['A', 'a'], ['A', 'a']] [] (by decide)

theorem selectPassAux_keep_all (pHomDom pHet pHomRec : ℚ) (d : ℕ → ℚ) :
    ∀ (pop : List Genotype) (i : ℕ),
      (∀ j, ∀ g ∈ pop, checkSurvival pHomDom pHet pHomRec (d j) g = some true) →
      selectPassAux pHomDom pHet pHomRec d i pop = some pop := by
  intro pop
  induction pop with
  | nil => intro i _; rfl
  | cons g rest ih =>
    intro i h
    rw [selectPassAux, h i g (by simp),
      ih (i + 1) (fun j g2 hg2 => h j g2 (by simp [hg2]))]

theorem survivalProbOpt_AA (pHomDom pHet pHomRec : ℚ) :
    survivalProbOpt pHomDom pHet pHomRec ['A', 'A'] = some pHomDom := rfl

theorem survivalProbOpt_Aa (pHomDom pHet pHomRec : ℚ) :
    survivalProbOpt pHomDom pHet pHomRec ['A', 'a'] = some pHet := rfl

theorem survivalProbOpt_aA (pHomDom pHet pHomRec : ℚ) :
    survivalProbOpt pHomDom pHet pHomRec ['a', 'A'] = some pHet := rfl

theorem survivalProbOpt_aa (pHomDom pHet pHomRec : ℚ) :
    survivalProbOpt pHomDom pHet pHomRec ['a', 'a'] = some pHomRec := rfl

theorem checkSurvival_wellFormed (pHomDom pHet pHomRec u : ℚ) {g : Genotype}
    (h : wellFormed g) : ∃ p : ℚ,
      (p = pHomDom ∨ p = pHet ∨ p = pHomRec) ∧
      checkSurvival pHomDom pHet pHomRec u g = some (decide (u < p)) := by
  rw [wellFormed_iff] at h
  rcases h with rfl | rfl | rfl | rfl
  · exact ⟨pHomDom, Or.inl rfl, by rw [checkSurvival, survivalProbOpt_AA]; rfl⟩
  · exact ⟨pHet, Or.inr (Or.inl rfl), by rw [checkSurvival, survivalProbOpt_Aa]; rfl⟩
  · exact ⟨pHet, Or.inr (Or.inl rfl), by rw [checkSurvival, survivalProbOpt_aA]; rfl⟩
  · exact ⟨pHomRec, Or.inr (Or.inr rfl), by rw [checkSurvival, survivalProbOpt_aa]; rfl⟩

theorem selectPassAux_kill_all (pHomDom pHet pHomRec : ℚ) (d : ℕ → ℚ) :
    ∀ (pop : List Genotype) (i : ℕ),
      (∀ j, ∀ g ∈ pop, checkSurvival pHomDom pHet pHomRec (d j) g = some false) →
      selectPassAux pHomDom pHet pHomRec d i pop = some [] := by
  intro pop
  induction pop with
  | nil => intro i _; rfl
  | cons g rest ih =>
    intro i h
    rw [selectPassAux, h i g (by simp)]
    exact ih (i + 1) (fun j g2 hg2 => h j g2 (by simp [hg2]))

theorem enforceCapacity_all_survive_none (pHomDom pHet pHomRec : ℚ) (C : ℕ)
    (pop : List Genotype) (hlen : C < pop.length) (u : ℚ)
    (hsurv : ∀ g ∈ pop, checkSurvival pHomDom pHet pHomRec u g = some true) :
    ∀ fuel : ℕ,
      enforceCapacity pHomDom pHet pHomRec C (fun _ _ => u) fuel pop = none := by
  intro fuel
  induction fuel with
  | zero =>
    rw [enforceCapacity, if_neg (by omega)]
  | succ fuel ih =>
    rw [enforceCapacity, if_neg (by omega)]
    have hsel : selectPass pHomDom pHet pHomRec (fun _ => u) pop = some pop :=
      selectPassAux_keep_all pHomDom pHet pHomRec (fun _ => u) pop 0
        (fun _ g hg => hsurv g hg)
    rw [hsel]
    exact ih

/-- Claim C3 counterexample: all three survival probabilities are the
configured 0.99 < 1, the population (1001 heterozygotes) exceeds the
carrying capacity 1000, yet under the all-zero draw sequence (every
organism survives every trial) the capacity loop never exits: no fuel
bound makes it return a population. -/
theorem capacity_loop_nontermination :
    ¬ ∃ (fuel : ℕ) (pop2 : List Genotype),
      enforceCapacity HOM_DOM_SURV_PROB HET_SURV_PROB HOM_REC_SURV_PROB
        CARRYING_CAPACITY (fun _ _ => 0) fuel
        (List.replicate (CARRYING_CAPACITY + 1)
          (DOMINANT_ALLELE ++ RECESSIVE_ALLELE)) = some pop2 := by
  rintro ⟨fuel, pop2, h⟩
  rw [enforceCapacity_all_survive_none] at h
  · exact absurd h (by simp)
  · rw [List.length_replicate]
    omega
  · intro g hg
    obtain rfl := List.eq_of_mem_replicate hg
    show checkSurvival _ _ _ 0 ['A', 'a'] = some true
    rw [checkSurvival, survivalProbOpt_Aa]
    decide

/-- Claim C3 amended: with all survival probabilities in (0, 1) the
loop is not guaranteed to exit for every draw sequence, but for every
well-formed starting population there exists a valid draw sequence
(draws in [0, 1)) under which it exits, with a resulting population of
size at most the capacity. -/
theorem capacity_loop_terminates_for_some_draws
    (pHomDom pHet pHomRec : ℚ) (C : ℕ) (pop : List Genotype)
    (hwf : ∀ g ∈ pop, wellFormed g)
    (h1 : 0 < pHomDom) (h2 : 0 < pHet) (h3 : 0 < pHomRec)
    (h4 : pHomDom < 1) (h5 : pHet < 1) (h6 : pHomRec < 1) :
    ∃ d : ℕ → ℕ → ℚ, (∀ k j, 0 ≤ d k j ∧ d k j < 1) ∧
      ∃ (fuel : ℕ) (pop2 : List Genotype),
        enforceCapacity pHomDom pHet pHomRec C d fuel pop = some pop2 ∧
          pop2.length ≤ C := by
  set u : ℚ := max pHomDom (max pHet pHomRec) with hu
  have hu0 : 0 ≤ u := le_trans h1.le (le_max_left _ _)
  have hu1 : u < 1 := max_lt h4 (max_lt h5 h6)
  have hkill : ∀ g ∈ pop,
      checkSurvival pHomDom pHet pHomRec u g = some false := by
    intro g hg
    obtain ⟨p, hp, hcs⟩ :=
      checkSurvival_wellFormed pHomDom pHet pHomRec u (hwf g hg)
    have hpu : p ≤ u := by
      rcases hp with rfl | rfl | rfl
      · exact le_max_left _ _
      · exact le_trans (le_max_left _ _) (le_max_right _ _)
      · exact le_trans (le_max_right _ _) (le_max_right _ _)
    rw [hcs, decide_eq_false (not_lt.mpr hpu)]
  refine ⟨fun _ _ => u, fun k j => ⟨hu0, hu1⟩, ?_⟩
  by_cases hc : pop.length ≤ C
  · exact ⟨0, pop, by rw [enforceCapacity, if_pos hc], hc⟩
  · refine ⟨1, [], ?_, by simp⟩
    have hsel : selectPass pHomDom pHet pHomRec (fun _ => u) pop = some [] :=
      selectPassAux_kill_all pHomDom pHet pHomRec (fun _ => u) pop 0
        (fun _ g hg => hkill g hg)
    have hrun : enforceCapacity pHomDom pHet pHomRec C (fun _ _ => u)
        (0 + 1) pop = some [] := by
      rw [enforceCapacity, if_neg hc, hsel]
      show enforceCapacity pHomDom pHet pHomRec C (fun _ _ => u) 0 [] = some []
      rw [enforceCapacity]
      simp
    exact hrun

theorem runSimAux_length (pHomDom pHet pHomRec : ℚ) (C capFuel : ℕ)
    (os : ℕ → GenOracle) : ∀ (n g : ℕ) (pop : List Genotype)
      (hist : List (List Genotype)) (finPop : List Genotype),
      runSimAux pHomDom pHet pHomRec C capFuel os g n pop = some (hist, finPop) →
      hist.length = n := by
  intro n
  induction n with
  | zero =>
    intro g pop hist finPop h
    rw [runSimAux] at h
    simp only [Option.some.injEq, Prod.mk.injEq] at h
    obtain ⟨h1, _⟩ := h
    simp [← h1]
  | succ n ih =>
    intro g pop hist finPop h
    rw [runSimAux] at h
    split at h
    · exact absurd h (by simp)
    · split at h
      · exact absurd h (by simp)
      · rename_i hist2 fin2 heq2
        simp only [Option.some.injEq, Prod.mk.injEq] at h
        obtain ⟨h1, _⟩ := h
        rw [← h1, List.length_cons, ih _ _ hist2 fin2 heq2]

/-- Claim C4: the statistics aggregator emits exactly one entry per
recorded generation in each of the six output series (their lengths all
equal the generation count), the substituted denominators are never
zero, and a generation with raw genotype total 0 (extinct) gets exactly
0 in every genotype- and allele-percentage series. -/
theorem stats_series_safe (pHomDom pHet pHomRec : ℚ) (C capFuel nGen : ℕ)
    (os : ℕ → GenOracle) (initPop : List Genotype)
    (hist : List (List Genotype)) (finPop : List Genotype)
    (hrun : runSim pHomDom pHet pHomRec C capFuel nGen os initPop =
      some (hist, finPop)) :
    (HOM_DOM_N_LIST hist).length = nGen ∧
      (HOM_REC_N_LIST hist).length = nGen ∧
      (HET_N_LIST hist).length = nGen ∧
      (DOM_ALLELE_N hist).length = nGen ∧
      (REC_ALLELE_N hist).length = nGen ∧
      (TOTAL_N hist).length = nGen ∧
      ∀ gen ∈ hist,
        0 < (substTotals gen).1 ∧ 0 < (substTotals gen).2 ∧
          (genotypeTotalRaw gen = 0 →
            (statsOfGen gen).homDomPct = 0 ∧ (statsOfGen gen).homRecPct = 0 ∧
              (statsOfGen gen).hetPct = 0 ∧ (statsOfGen gen).domPct = 0 ∧
                (statsOfGen gen).recPct = 0) := by
  have hl : hist.length = nGen :=
    runSimAux_length pHomDom pHet pHomRec C capFuel os nGen 0 initPop hist
      finPop hrun
  refine ⟨?_, ?_, ?_, ?_, ?_, ?_, ?_⟩
  · simp [HOM_DOM_N_LIST, hl]
  · simp [HOM_REC_N_LIST, hl]
  · simp [HET_N_LIST, hl]
  · simp [DOM_ALLELE_N, hl]
  · simp [REC_ALLELE_N, hl]
  · simp [TOTAL_N, hl]
  intro gen _
  refine ⟨?_, ?_, ?_⟩
  · unfold substTotals
    split_ifs with hz
    · simp
    · push_neg at hz
      simp
      omega
  · unfold substTotals
    split_ifs with hz
    · simp
    · push_neg at hz
      simp
      omega
  · intro h0
    have hinv := genCounts_loop_invariant gen ⟨0, 0, 0, 0, 0⟩ rfl rfl
    have hz : (genCounts gen).nHomDom = 0 ∧ (genCounts gen).nHet = 0 ∧
        (genCounts gen).nHomRec = 0 ∧ (genCounts gen).nDomAllele = 0 ∧
        (genCounts gen).nRecAllele = 0 := by
      unfold genotypeTotalRaw at h0
      unfold genCounts at h0 ⊢
      omega
    obtain ⟨hz1, hz2, hz3, hz4, hz5⟩ := hz
    simp [statsOfGen, hz1, hz2, hz3, hz4, hz5]

theorem stride2_length {α : Type} :
    ∀ l : List α, (stride2 l).length = (l.length + 1) / 2
  | [] => by simp [stride2]
  | [_] => by simp [stride2]
  | _ :: _ :: rest => by
    rw [stride2, List.length_cons, stride2_length rest]
    simp only [List.length_cons]
    omega

theorem stride2_cons_tail {α : Type} (b : α) (rest : List α) :
    stride2 (b :: rest) = b :: stride2 rest.tail := by
  cases rest <;> rfl

theorem pairedFlat_eq_take {α : Type} :
    ∀ l : List α,
      (((stride2 l).zip (stride2 l.tail)).map (fun p => [p.1, p.2])).flatten =
        l.take (2 * (l.length / 2))
  | [] => by simp [stride2]
  | [_] => by simp [stride2]
  | a :: b :: rest => by
    rw [stride2]
    show (((a :: stride2 rest).zip (stride2 (b :: rest))).map
      (fun p => [p.1, p.2])).flatten = _
    rw [stride2_cons_tail, List.zip_cons_cons, List.map_cons, List.flatten_cons,
      pairedFlat_eq_take rest]
    have harith : 2 * (((b :: rest).length + 1) / 2) =
        2 * (rest.length / 2) + 1 + 1 := by
      simp only [List.length_cons]
      omega
    simp only [List.length_cons]
    rw [show rest.length + 1 + 1 = (b :: rest).length + 1 by simp,
      harith, List.take_succ_cons, List.take_succ_cons]
    rfl

/-- Claim C8: with the shuffled index list a permutation of
`range n`, the Mating step forms exactly `n / 2` pairs; the paired
indices are precisely the first `2 * (n / 2)` entries of the shuffled
list (so no organism appears in more than one pair), and when `n` is
odd exactly one organism is left out. -/
theorem mating_pairing (o : GenOracle) (n : ℕ)
    (hperm : (o.shuffled (List.range n)).Perm (List.range n)) :
    numPairs o n = n / 2 ∧
      pairedIndices o n = (shuffledIndices o n).take (2 * (n / 2)) ∧
      (pairedIndices o n).Nodup ∧
      (n % 2 = 1 → ((shuffledIndices o n).drop (2 * (n / 2))).length = 1) := by
  have hlen : (shuffledIndices o n).length = n := by
    rw [shuffledIndices]
    exact hperm.length_eq.trans (List.length_range n)
  have hnd : (shuffledIndices o n).Nodup := by
    rw [shuffledIndices]
    exact hperm.nodup_iff.mpr (List.nodup_range n)
  have htake : pairedIndices o n = (shuffledIndices o n).take (2 * (n / 2)) := by
    rw [pairedIndices, matingPairs, pairedFlat_eq_take (shuffledIndices o n), hlen]
  refine ⟨?_, htake, ?_, ?_⟩
  · rw [numPairs, matingPairs, List.length_zip, stride2_length, stride2_length,
      List.length_tail, hlen]
    omega
  · rw [htake]
    exact (List.take_sublist _ _).nodup hnd
  · intro hodd
    rw [List.length_drop, hlen]
    omega

/-- Witness for C8 with the identity shuffle on five organisms. -/
theorem mating_pairing_witness :
    numPairs ⟨fun _ => 0, fun _ _ => 0, id, fun _ => 0,
        fun _ _ => 0, fun _ _ => 0⟩ 5 = 5 / 2 ∧
      pairedIndices ⟨fun _ => 0, fun _ _ => 0, id, fun _ => 0,
          fun _ _ => 0, fun _ _ => 0⟩ 5 =
        (shuffledIndices ⟨fun _ => 0, fun _ _ => 0, id, fun _ => 0,
          fun _ _ => 0, fun _ _ => 0⟩ 5).take (2 * (5 / 2)) ∧
      (pairedIndices ⟨fun _ => 0, fun _ _ => 0, id, fun _ => 0,
        fun _ _ => 0, fun _ _ => 0⟩ 5).Nodup ∧
      (5 % 2 = 1 →
        ((shuffledIndices ⟨fun _ => 0, fun _ _ => 0, id, fun _ => 0,
          fun _ _ => 0, fun _ _ => 0⟩ 5).drop (2 * (5 / 2))).length = 1) :=
  mating_pairing ⟨fun _ => 0, fun _ _ => 0, id, fun _ => 0,
    fun _ _ => 0, fun _ _ => 0⟩ 5 (List.Perm.refl _)

/-- Witness for C4 on a concrete two-generation run whose second
recorded generation is regular and whose series have length 2. -/
theorem stats_series_safe_witness :
    (TOTAL_N [[['A', 'a'], ['A', 'a']], [['A', 'a']]]).length = 2 :=
  (stats_series_safe 1 1 1 10 0 2
    (fun _ => ⟨fun _ => 0, fun _ _ => 0, id, fun _ => 1,
      fun _ _ => 0, fun _ _ => 1⟩)
    (initialPopulation 2) [[['A', 'a'], ['A', 'a']], [['A', 'a']]] []
    (by decide)).2.2.2.2.2.1

theorem pyRound_nearest (x : ℚ) : |((pyRound x : ℤ) : ℚ) - x| ≤ 1 / 2 := by
  have hdz : (0 : ℤ) < (x.den : ℤ) := by exact_mod_cast x.den_pos
  have hdq : (0 : ℚ) < (x.den : ℚ) := by exact_mod_cast x.den_pos
  have hr0 : (0 : ℤ) ≤ x.num % (x.den : ℤ) := Int.emod_nonneg x.num (by omega)
  have hrd : x.num % (x.den : ℤ) < (x.den : ℤ) := Int.emod_lt_of_pos x.num hdz
  have hsum : (x.den : ℤ) * (x.num / (x.den : ℤ)) + x.num % (x.den : ℤ) = x.num :=
    Int.ediv_add_emod x.num (x.den : ℤ)
  have hx : ((x.num % (x.den : ℤ) : ℤ) : ℚ) / (x.den : ℚ) =
      x - ((x.num / (x.den : ℤ) : ℤ) : ℚ) := by
    have h1 : ((x.num % (x.den : ℤ) : ℤ) : ℚ) =
        (x.num : ℚ) - (x.den : ℚ) * ((x.num / (x.den : ℤ) : ℤ) : ℚ) := by
      have h2 : x.num % (x.den : ℤ) =
          x.num - (x.den : ℤ) * (x.num / (x.den : ℤ)) := by omega
      exact_mod_cast h2
    rw [h1, sub_div, Rat.num_div_den, mul_div_cancel_left₀ _ hdq.ne']
  have hfrac0 : (0 : ℚ) ≤ ((x.num % (x.den : ℤ) : ℤ) : ℚ) / (x.den : ℚ) :=
    div_nonneg (by exact_mod_cast hr0) hdq.le
  have hA : 2 * (x.num % (x.den : ℤ)) ≤ (x.den : ℤ) →
      |((x.num / (x.den : ℤ) : ℤ) : ℚ) - x| ≤ 1 / 2 := by
    intro hle
    have hfx : ((x.num / (x.den : ℤ) : ℤ) : ℚ) - x =
        -(((x.num % (x.den : ℤ) : ℤ) : ℚ) / (x.den : ℚ)) := by
      linarith
    rw [hfx, abs_neg, abs_of_nonneg hfrac0, div_le_iff₀ hdq]
    have hle2 : 2 * ((x.num % (x.den : ℤ) : ℤ) : ℚ) ≤ (x.den : ℚ) := by
      exact_mod_cast hle
    linarith
  have hB : (x.den : ℤ) ≤ 2 * (x.num % (x.den : ℤ)) →
      |((x.num / (x.den : ℤ) + 1 : ℤ) : ℚ) - x| ≤ 1 / 2 := by
    intro hle
    have hlt1 : ((x.num % (x.den : ℤ) : ℤ) : ℚ) / (x.den : ℚ) < 1 := by
      rw [div_lt_one hdq]
      exact_mod_cast hrd
    have hle2 : (x.den : ℚ) ≤ 2 * ((x.num % (x.den : ℤ) : ℤ) : ℚ) := by
      exact_mod_cast hle
    have h12 : (1 : ℚ) / 2 ≤ ((x.num % (x.den : ℤ) : ℤ) : ℚ) / (x.den : ℚ) := by
      rw [le_div_iff₀ hdq]
      linarith
    push_cast
    have hfx : ((x.num / (x.den : ℤ) : ℤ) : ℚ) + 1 - x =
        1 - ((x.num % (x.den : ℤ) : ℤ) : ℚ) / (x.den : ℚ) := by
      linarith
    rw [hfx, abs_of_nonneg (by linarith)]
    linarith
  simp only [pyRound]
  split_ifs with h1 h2 h3
  · exact hA (by omega)
  · exact hB (by omega)
  · exact hA (by omega)
  · exact hB (by omega)

theorem genOffAux_length (o : GenOracle) (pairnum : ℕ) (p1 p2 : Genotype) :
    ∀ (n i : ℕ) (offs : List Genotype),
      genOffAux o pairnum p1 p2 i n = some offs → offs.length = n := by
  intro n
  induction n with
  | zero =>
    intro i offs h
    rw [genOffAux] at h
    simp only [Option.some.injEq] at h
    simp [← h]
  | succ n ih =>
    intro i offs h
    rw [genOffAux] at h
    split at h
    · exact absurd h (by simp)
    · split at h
      · exact absurd h (by simp)
      · rename_i rest heq
        simp only [Option.some.injEq] at h
        rw [← h, List.length_cons, ih _ _ heq]

/-- Claim C9: when the rounded offspring-count draw is at most 0, the
inner reproduction loop executes zero times and appends no offspring;
in general the loop appends exactly `toNat (rounded)` offspring, and
the raw draw is rounded to a nearest integer (within 1/2), with no
clamping before rounding and no special-casing of negative results. -/
theorem offspring_rounding (o : GenOracle) (pairnum : ℕ) (p1 p2 : Genotype)
    (x : ℚ) :
    (howManyOffspring x ≤ 0 →
      genOffAux o pairnum p1 p2 0 (howManyOffspring x).toNat = some []) ∧
      (∀ offs,
        genOffAux o pairnum p1 p2 0 (howManyOffspring x).toNat = some offs →
          offs.length = (howManyOffspring x).toNat) ∧
      |((howManyOffspring x : ℤ) : ℚ) - x| ≤ 1 / 2 := by
  refine ⟨?_, ?_, pyRound_nearest x⟩
  · intro h
    rw [Int.toNat_of_nonpos h, genOffAux]
  · intro offs h
    exact genOffAux_length o pairnum p1 p2 _ _ offs h

/-- Witness for C9 at the raw draw -1/2, which rounds to 0 (no
special-casing: the loop simply runs zero times). -/
theorem offspring_rounding_witness :
    genOffAux ⟨fun _ => 0, fun _ _ => 0, id, fun _ => 0, fun _ _ => 0,
        fun _ _ => 0⟩ 0 ['A', 'a'] ['A', 'a'] 0
        (howManyOffspring (mkRat (-1) 2)).toNat = some [] ∧
      |((howManyOffspring (mkRat (-1) 2) : ℤ) : ℚ) - mkRat (-1) 2| ≤ 1 / 2 :=
  ⟨(offspring_rounding ⟨fun _ => 0, fun _ _ => 0, id, fun _ => 0, fun _ _ => 0,
      fun _ _ => 0⟩ 0 ['A', 'a'] ['A', 'a'] (mkRat (-1) 2)).1 (by decide),
    (offspring_rounding ⟨fun _ => 0, fun _ _ => 0, id, fun _ => 0, fun _ _ => 0,
      fun _ _ => 0⟩ 0 ['A', 'a'] ['A', 'a'] (mkRat (-1) 2)).2.2⟩

theorem selectPass_nil (pHomDom pHet pHomRec : ℚ) (d : ℕ → ℚ) :
    selectPass pHomDom pHet pHomRec d [] = some [] := by
  rw [selectPass, selectPassAux]

theorem enforceCapacity_nil (pHomDom pHet pHomRec : ℚ) (C : ℕ) (d : ℕ → ℕ → ℚ) :
    ∀ fuel, enforceCapacity pHomDom pHet pHomRec C d fuel [] = some [] := by
  intro fuel
  cases fuel with
  | zero => rw [enforceCapacity, if_pos (by simp)]
  | succ fuel => rw [enforceCapacity, if_pos (by simp)]

theorem mateStep_nil (o : GenOracle) (hsh : (o.shuffled []).Perm []) :
    mateStep o [] = some [] := by
  have h0 : o.shuffled [] = [] := hsh.eq_nil
  simp [mateStep, matingPairs, shuffledIndices, List.range_zero, h0, stride2,
    matePairs]

theorem generationStep_nil (pHomDom pHet pHomRec : ℚ) (C capFuel : ℕ)
    (o : GenOracle) (hsh : (o.shuffled []).Perm []) :
    generationStep pHomDom pHet pHomRec C capFuel o [] = some ([], []) := by
  simp only [generationStep, selectPass_nil, enforceCapacity_nil,
    mateStep_nil o hsh]

theorem generationStep_inv (pHomDom pHet pHomRec : ℚ) (C capFuel : ℕ)
    (o : GenOracle) (pop recPop next : List Genotype)
    (h : generationStep pHomDom pHet pHomRec C capFuel o pop =
      some (recPop, next)) :
    ∃ selected, selectPass pHomDom pHet pHomRec o.selDraws pop = some selected ∧
      enforceCapacity pHomDom pHet pHomRec C o.capDraws capFuel selected =
        some recPop ∧
      mateStep o recPop = some next := by
  rw [generationStep] at h
  split at h
  · exact absurd h (by simp)
  split at h
  · exact absurd h (by simp)
  split at h
  · exact absurd h (by simp)
  rename_i x1 selected hsel x2 capped hcap x3 nextv hmate
  simp only [Option.some.injEq, Prod.mk.injEq] at h
  obtain ⟨h1, h2⟩ := h
  subst h1
  subst h2
  exact ⟨selected, hsel, hcap, hmate⟩

theorem runSimAux_succ_inv (pHomDom pHet pHomRec : ℚ) (C capFuel : ℕ)
    (os : ℕ → GenOracle) (n g : ℕ) (pop : List Genotype)
    (hist : List (List Genotype)) (finPop : List Genotype)
    (h : runSimAux pHomDom pHet pHomRec C capFuel os g (n + 1) pop =
      some (hist, finPop)) :
    ∃ recPop next hist2,
      generationStep pHomDom pHet pHomRec C capFuel (os g) pop =
        some (recPop, next) ∧
      runSimAux pHomDom pHet pHomRec C capFuel os (g + 1) n next =
        some (hist2, finPop) ∧
      hist = recPop :: hist2 := by
  rw [runSimAux] at h
  split at h
  · exact absurd h (by simp)
  split at h
  · exact absurd h (by simp)
  rename_i x1 recPop2 next2 heqg x2 hist3 fin3 heqr
  simp only [Option.some.injEq, Prod.mk.injEq] at h
  obtain ⟨h1, h2⟩ := h
  refine ⟨recPop2, next2, hist3, heqg, ?_, h1.symm⟩
  rw [← h2]
  exact heqr

theorem generationStep_next_nil (pHomDom pHet pHomRec : ℚ) (C capFuel : ℕ)
    (o : GenOracle) (hsh : (o.shuffled []).Perm [])
    (pop next : List Genotype)
    (h : generationStep pHomDom pHet pHomRec C capFuel o pop =
      some ([], next)) : next = [] := by
  obtain ⟨selected, _, _, hmate⟩ :=
    generationStep_inv pHomDom pHet pHomRec C capFuel o pop [] next h
  rw [mateStep_nil o hsh] at hmate
  exact (Option.some.inj hmate).symm

theorem runSimAux_nil (pHomDom pHet pHomRec : ℚ) (C capFuel : ℕ)
    (os : ℕ → GenOracle) (hsh : ∀ g, ((os g).shuffled []).Perm []) :
    ∀ n g, runSimAux pHomDom pHet pHomRec C capFuel os g n [] =
      some (List.replicate n [], []) := by
  intro n
  induction n with
  | zero => intro g; rfl
  | succ n ih =>
    intro g
    simp only [runSimAux,
      generationStep_nil pHomDom pHet pHomRec C capFuel (os g) (hsh g),
      ih (g + 1), List.replicate_succ]

theorem getD_nil_of_all_nil (l : List (List Genotype))
    (h : ∀ x ∈ l, x = ([] : List Genotype)) (k : ℕ) : l.getD k [] = [] := by
  rw [List.getD_eq_getElem?_getD]
  cases hk : l[k]? with
  | none => rfl
  | some x => exact h x (List.getElem?_mem hk)

theorem runSimAux_extinct (pHomDom pHet pHomRec : ℚ) (C capFuel : ℕ)
    (os : ℕ → GenOracle) (hsh : ∀ g l, ((os g).shuffled l).Perm l) :
    ∀ (n g : ℕ) (pop : List Genotype) (hist : List (List Genotype))
      (finPop : List Genotype),
      runSimAux pHomDom pHet pHomRec C capFuel os g n pop = some (hist, finPop) →
      ∀ i, hist.getD i [] = [] → ∀ j, i ≤ j → j < n → hist.getD j [] = [] := by
  intro n
  induction n with
  | zero => intro g pop hist finPop h i hi j hij hj; omega
  | succ n ih =>
    intro g pop hist finPop h i hi j hij hj
    obtain ⟨recPop, next, hist2, heq1, heq2, rfl⟩ :=
      runSimAux_succ_inv pHomDom pHet pHomRec C capFuel os n g pop hist
        finPop h
    cases i with
    | zero =>
      have hrec : recPop = [] := by simpa using hi
      subst hrec
      have hnext : next = [] :=
        generationStep_next_nil pHomDom pHet pHomRec C capFuel (os g)
          (hsh g []) pop next heq1
      subst hnext
      rw [runSimAux_nil pHomDom pHet pHomRec C capFuel os
        (fun g2 => hsh g2 []) n (g + 1)] at heq2
      simp only [Option.some.injEq, Prod.mk.injEq] at heq2
      obtain ⟨h3, _⟩ := heq2
      cases j with
      | zero => simp
      | succ j2 =>
        have hj2 : hist2.getD j2 [] = [] := by
          rw [← h3]
          exact getD_nil_of_all_nil _
            (fun x hx => List.eq_of_mem_replicate hx) j2
        simpa using hj2
    | succ i2 =>
      cases j with
      | zero => omega
      | succ j2 =>
        have hi2 : hist2.getD i2 [] = [] := by simpa using hi
        have hres := ih (g + 1) next hist2 finPop heq2 i2 hi2 j2
          (by omega) (by omega)
        simpa using hres

theorem numPairs_zero (o : GenOracle) (hsh : (o.shuffled []).Perm []) :
    numPairs o 0 = 0 := by
  have h0 : o.shuffled [] = [] := hsh.eq_nil
  simp [numPairs, matingPairs, shuffledIndices, List.range_zero, h0, stride2]

/-- Claim C7: if the recorded (post-selection, post-capacity
enforcement) population of some generation is empty, then zero mating
pairs form in that generation and the recorded population of every
later generation is empty as well, while the generation loop still
runs to completion: the history length equals the generation count. -/
theorem extinction_persists (pHomDom pHet pHomRec : ℚ) (C capFuel nGen : ℕ)
    (os : ℕ → GenOracle) (initPop : List Genotype)
    (hsh : ∀ g l, ((os g).shuffled l).Perm l)
    (hist : List (List Genotype)) (finPop : List Genotype)
    (hrun : runSim pHomDom pHet pHomRec C capFuel nGen os initPop =
      some (hist, finPop))
    (i j : ℕ) (hij : i ≤ j) (hj : j < nGen)
    (hext : hist.getD i [] = []) :
    hist.length = nGen ∧ numPairs (os i) (hist.getD i []).length = 0 ∧
      hist.getD j [] = [] := by
  refine ⟨runSimAux_length pHomDom pHet pHomRec C capFuel os nGen 0 initPop
    hist finPop hrun, ?_, ?_⟩
  · rw [hext]
    exact numPairs_zero (os i) (hsh i [])
  · exact runSimAux_extinct pHomDom pHet pHomRec C capFuel os hsh nGen 0
      initPop hist finPop hrun i hext j hij hj

/-- Witness for C7: survival probability 1/2 with draws 1/2 kills the
single heterozygote in the first generation; both recorded generations
are empty and the loop still records both. -/
theorem extinction_persists_witness :
    ([[], []] : List (List Genotype)).length = 2 ∧
      numPairs ⟨fun _ => mkRat 1 2, fun _ _ => 0, id, fun _ => 1,
        fun _ _ => 0, fun _ _ => 1⟩
        (([[], []] : List (List Genotype)).getD 0 []).length = 0 ∧
      ([[], []] : List (List Genotype)).getD 1 [] = [] :=
  extinction_persists (mkRat 1 2) (mkRat 1 2) (mkRat 1 2) 10 0 2
    (fun _ => ⟨fun _ => mkRat 1 2, fun _ _ => 0, id, fun _ => 1,
      fun _ _ => 0, fun _ _ => 1⟩) [['A', 'a']] (fun _ l => List.Perm.refl l)
    [[], []] [] (by decide) 0 1 (by omega) (by omega) (by decide)

theorem selectPassAux_subset (pHomDom pHet pHomRec : ℚ) (d : ℕ → ℚ) :
    ∀ (pop : List Genotype) (i : ℕ) (r : List Genotype),
      selectPassAux pHomDom pHet pHomRec d i pop = some r →
      ∀ g ∈ r, g ∈ pop := by
  intro pop
  induction pop with
  | nil =>
    intro i r h
    rw [selectPassAux] at h
    simp only [Option.some.injEq] at h
    rw [← h]
    simp
  | cons g2 rest ih =>
    intro i r h
    rw [selectPassAux] at h
    split at h
    · exact absurd h (by simp)
    · split at h
      · exact absurd h (by simp)
      · rename_i x2 r2 heq2
        simp only [Option.some.injEq] at h
        intro g hg
        rw [← h] at hg
        rcases List.mem_cons.mp hg with rfl | hg2
        · exact List.mem_cons_self _ _
        · exact List.mem_cons_of_mem _ (ih _ _ heq2 g hg2)
    · intro g hg
      exact List.mem_cons_of_mem _ (ih _ _ h g hg)

theorem enforceCapacity_subset (pHomDom pHet pHomRec : ℚ) (C : ℕ) :
    ∀ (fuel : ℕ) (d : ℕ → ℕ → ℚ) (pop r : List Genotype),
      enforceCapacity pHomDom pHet pHomRec C d fuel pop = some r →
      ∀ g ∈ r, g ∈ pop := by
  intro fuel
  induction fuel with
  | zero =>
    intro d pop r h
    rw [enforceCapacity] at h
    by_cases hc : pop.length ≤ C
    · rw [if_pos hc] at h
      obtain rfl := Option.some.inj h
      exact fun g hg => hg
    · rw [if_neg hc] at h
      exact absurd h (by simp)
  | succ fuel ih =>
    intro d pop r h
    rw [enforceCapacity] at h
    by_cases hc : pop.length ≤ C
    · rw [if_pos hc] at h
      obtain rfl := Option.some.inj h
      exact fun g hg => hg
    · rw [if_neg hc] at h
      cases hsel : selectPass pHomDom pHet pHomRec (d 0) pop with
      | none => rw [hsel] at h; exact absurd h (by simp)
      | some pop2 =>
        rw [hsel] at h
        intro g hg
        exact selectPassAux_subset pHomDom pHet pHomRec (d 0) pop 0 pop2 hsel
          g (ih (fun k => d (k + 1)) pop2 r h g hg)

theorem generateOffspring_mem (i j : ℕ) (p1 p2 : Genotype) (c : Genotype)
    (h : generateOffspring i j p1 p2 = some c) :
    ∃ a ∈ p1, ∃ b ∈ p2, c = [a, b] := by
  rw [generateOffspring] at h
  cases h1 : randomChoice i p1 with
  | none => rw [h1] at h; exact absurd h (by simp)
  | some a =>
    rw [h1] at h
    cases h2 : randomChoice j p2 with
    | none => rw [h2] at h; exact absurd h (by simp)
    | some b =>
      rw [h2] at h
      have hc : c = [a, b] := (Option.some.inj h).symm
      rw [randomChoice] at h1 h2
      exact ⟨a, List.getElem?_mem h1, b, List.getElem?_mem h2, hc⟩

theorem wellFormed_pair {p1 p2 : Genotype} {a b : Char}
    (ha : a ∈ p1) (hb : b ∈ p2) (h1 : wellFormed p1) (h2 : wellFormed p2) :
    wellFormed [a, b] := by
  refine ⟨rfl, ?_⟩
  intro c hc
  rcases List.mem_cons.mp hc with rfl | hc2
  · exact h1.2 c ha
  · rcases List.mem_cons.mp hc2 with rfl | hc3
    · exact h2.2 c hb
    · simp at hc3

theorem genOffAux_wf (o : GenOracle) (pairnum : ℕ) (p1 p2 : Genotype)
    (h1 : wellFormed p1) (h2 : wellFormed p2) :
    ∀ (n i : ℕ) (offs : List Genotype),
      genOffAux o pairnum p1 p2 i n = some offs →
      ∀ c ∈ offs, wellFormed c := by
  intro n
  induction n with
  | zero =>
    intro i offs h c hc
    rw [genOffAux] at h
    simp only [Option.some.injEq] at h
    rw [← h] at hc
    simp at hc
  | succ n ih =>
    intro i offs h c hc
    rw [genOffAux] at h
    cases hgen : generateOffspring (o.chooseA pairnum i) (o.chooseB pairnum i)
        p1 p2 with
    | none => rw [hgen] at h; exact absurd h (by simp)
    | some c2 =>
      rw [hgen] at h
      cases hrest : genOffAux o pairnum p1 p2 (i + 1) n with
      | none => rw [hrest] at h; exact absurd h (by simp)
      | some rest =>
        rw [hrest] at h
        have hcr : c2 :: rest = offs := Option.some.inj h
        rw [← hcr] at hc
        rcases List.mem_cons.mp hc with rfl | hc2
        · obtain ⟨a, ha, b, hb, rfl⟩ :=
            generateOffspring_mem _ _ p1 p2 c hgen
          exact wellFormed_pair ha hb h1 h2
        · exact ih (i + 1) rest hrest c hc2

theorem matePairs_wf (o : GenOracle) (pop : List Genotype)
    (hwf : ∀ g ∈ pop, wellFormed g) :
    ∀ (prs : List (ℕ × ℕ)) (pairnum : ℕ) (newPop : List Genotype),
      matePairs o pop prs pairnum = some newPop →
      ∀ c ∈ newPop, wellFormed c := by
  intro prs
  induction prs with
  | nil =>
    intro pairnum newPop h c hc
    rw [matePairs] at h
    simp only [Option.some.injEq] at h
    rw [← h] at hc
    simp at hc
  | cons pr rest ih =>
    obtain ⟨i1, i2⟩ := pr
    intro pairnum newPop h c hc
    rw [matePairs] at h
    cases hgi1 : pop[i1]? with
    | none => rw [hgi1] at h; exact absurd h (by simp)
    | some p1 =>
      rw [hgi1] at h
      cases hgi2 : pop[i2]? with
      | none => rw [hgi2] at h; exact absurd h (by simp)
      | some p2 =>
        rw [hgi2] at h
        have h2 : (match genOffAux o pairnum p1 p2 0
              (howManyOffspring (o.offDraws pairnum)).toNat with
          | none => none
          | some offs =>
            match matePairs o pop rest (pairnum + 1) with
            | none => none
            | some more => some (offs ++ more)) = some newPop := h
        cases hoffs : genOffAux o pairnum p1 p2 0
            (howManyOffspring (o.offDraws pairnum)).toNat with
        | none => rw [hoffs] at h2; exact absurd h2 (by simp)
        | some offs =>
          rw [hoffs] at h2
          cases hmore : matePairs o pop rest (pairnum + 1) with
          | none => rw [hmore] at h2; exact absurd h2 (by simp)
          | some more =>
            rw [hmore] at h2
            have happ : offs ++ more = newPop := Option.some.inj h2
            rw [← happ] at hc
            rcases List.mem_append.mp hc with hcl | hcr
            · exact genOffAux_wf o pairnum p1 p2
                (hwf p1 (List.getElem?_mem hgi1))
                (hwf p2 (List.getElem?_mem hgi2)) _ _ offs hoffs c hcl
            · exact ih (pairnum + 1) more hmore c hcr

theorem mateStep_wf (o : GenOracle) (pop newPop : List Genotype)
    (hwf : ∀ g ∈ pop, wellFormed g)
    (h : mateStep o pop = some newPop) : ∀ c ∈ newPop, wellFormed c :=
  matePairs_wf o pop hwf _ 0 newPop h

theorem generationStep_wf (pHomDom pHet pHomRec : ℚ) (C capFuel : ℕ)
    (o : GenOracle) (pop recPop next : List Genotype)
    (hwf : ∀ g ∈ pop, wellFormed g)
    (h : generationStep pHomDom pHet pHomRec C capFuel o pop =
      some (recPop, next)) :
    (∀ g ∈ recPop, wellFormed g) ∧ ∀ g ∈ next, wellFormed g := by
  obtain ⟨selected, hsel, hcap, hmate⟩ :=
    generationStep_inv pHomDom pHet pHomRec C capFuel o pop recPop next h
  have hselwf : ∀ g ∈ selected, wellFormed g := fun g hg =>
    hwf g (selectPassAux_subset pHomDom pHet pHomRec o.selDraws pop 0
      selected hsel g hg)
  have hrecwf : ∀ g ∈ recPop, wellFormed g := fun g hg =>
    hselwf g (enforceCapacity_subset pHomDom pHet pHomRec C capFuel
      o.capDraws selected recPop hcap g hg)
  exact ⟨hrecwf, mateStep_wf o recPop next hrecwf hmate⟩

theorem runSimAux_wf (pHomDom pHet pHomRec : ℚ) (C capFuel : ℕ)
    (os : ℕ → GenOracle) :
    ∀ (n g : ℕ) (pop : List Genotype) (hist : List (List Genotype))
      (finPop : List Genotype),
      (∀ g2 ∈ pop, wellFormed g2) →
      runSimAux pHomDom pHet pHomRec C capFuel os g n pop =
        some (hist, finPop) →
      (∀ gen ∈ hist, ∀ g2 ∈ gen, wellFormed g2) ∧
        ∀ g2 ∈ finPop, wellFormed g2 := by
  intro n
  induction n with
  | zero =>
    intro g pop hist finPop hwf h
    rw [runSimAux] at h
    simp only [Option.some.injEq, Prod.mk.injEq] at h
    obtain ⟨h1, h2⟩ := h
    constructor
    · intro gen hgen
      rw [← h1] at hgen
      simp at hgen
    · intro g2 hg2
      rw [← h2] at hg2
      exact hwf g2 hg2
  | succ n ih =>
    intro g pop hist finPop hwf h
    obtain ⟨recPop, next, hist2, heq1, heq2, rfl⟩ :=
      runSimAux_succ_inv pHomDom pHet pHomRec C capFuel os n g pop hist
        finPop h
    obtain ⟨hrec, hnext⟩ :=
      generationStep_wf pHomDom pHet pHomRec C capFuel (os g) pop recPop
        next hwf heq1
    obtain ⟨hhist2, hfin⟩ := ih (g + 1) next hist2 finPop hnext heq2
    refine ⟨?_, hfin⟩
    intro gen hgen
    rcases List.mem_cons.mp hgen with rfl | hgen2
    · exact hrec
    · exact hhist2 gen hgen2

theorem initialPopulation_wf (n : ℕ) :
    ∀ g ∈ initialPopulation n, wellFormed g := by
  intro g hg
  obtain rfl := List.eq_of_mem_replicate hg
  decide

/-- Claim C10: starting from the all-heterozygous initial population,
every member of every recorded generation and of the final population
is a two-character string over the alleles A and a; consequently
`checkSurvival`'s if-chain always assigns a survival probability (the
`probability` variable is never left unbound) and the statistics
classifier counts each organism in exactly one category. -/
theorem population_wellFormed (pHomDom pHet pHomRec : ℚ)
    (C capFuel nInit nGen : ℕ) (os : ℕ → GenOracle)
    (hist : List (List Genotype)) (finPop : List Genotype)
    (hrun : runSim pHomDom pHet pHomRec C capFuel nGen os
      (initialPopulation nInit) = some (hist, finPop)) :
    (∀ gen ∈ hist, ∀ g ∈ gen, wellFormed g ∧
      (survivalProbOpt pHomDom pHet pHomRec g).isSome = true ∧
      exactlyOneCategory g) ∧
    ∀ g ∈ finPop, wellFormed g := by
  obtain ⟨hhist, hfin⟩ := runSimAux_wf pHomDom pHet pHomRec C capFuel os
    nGen 0 (initialPopulation nInit) hist finPop
    (initialPopulation_wf nInit) hrun
  refine ⟨?_, hfin⟩
  intro gen hgen g hg
  have hwf := hhist gen hgen g hg
  exact ⟨hwf, survivalProbOpt_isSome_of_wellFormed pHomDom pHet pHomRec hwf,
    exactlyOneCategory_of_wellFormed hwf⟩

/-- Witness for C10 on a concrete two-generation run. -/
theorem population_wellFormed_witness :
    (∀ gen ∈ ([[['A', 'a'], ['A', 'a']], [['A', 'a']]] :
        List (List Genotype)),
      ∀ g ∈ gen, wellFormed g ∧ (survivalProbOpt 1 1 1 g).isSome = true ∧
        exactlyOneCategory g) ∧
    ∀ g ∈ ([] : List Genotype), wellFormed g :=
  population_wellFormed 1 1 1 10 0 2 2
    (fun _ => ⟨fun _ => 0, fun _ _ => 0, id, fun _ => 1,
      fun _ _ => 0, fun _ _ => 1⟩)
    [[['A', 'a'], ['A', 'a']], [['A', 'a']]] [] (by decide)

/-- Witness for the amended C3: probabilities 1/2 on a single
heterozygote with capacity 0. -/
theorem capacity_loop_terminates_witness :
    ∃ d : ℕ → ℕ → ℚ, (∀ k j, 0 ≤ d k j ∧ d k j < 1) ∧
      ∃ (fuel : ℕ) (pop2 : List Genotype),
        enforceCapacity (mkRat 1 2) (mkRat 1 2) (mkRat 1 2) 0 d fuel
          [['A', 'a']] = some pop2 ∧ pop2.length ≤ 0 :=
  capacity_loop_terminates_for_some_draws (mkRat 1 2) (mkRat 1 2) (mkRat 1 2)
    0 [['A', 'a']] (by decide) (by decide) (by decide) (by decide)
    (by decide) (by decide) (by decide)
